import Mathlib

/-!
Verification of the CSS selector builder of `05-objects-tasks.js`

This file gives a shallow embedding of the CSS selector builder
(`MyElement`, `cssSelectorBuilder`) and proves the specification claims
about it.

Two models are used:

* a *pure* model, where a fragment is an immutable value holding its
  `value`, `type` and `parent`, chaining methods return
  `Except String MyElement` (a thrown `Error(msg)` becomes
  `Except.error msg`), and `stringify` recurses over the parent chain.
  This captures the return values, the thrown errors and the rendered
  strings of the JavaScript code.

* a *heap* model (`Cell`, `heapChainCall`, `heapStringify`), where each
  `new MyElement(...)` allocates a cell in a list-indexed heap and the
  assignment `this.child = ...` performed by the chaining methods is an
  explicit store.  This captures the mutation behaviour needed by the
  frame/effect claims.
-/

/-- The six values of the `type` tag of a `MyElement`
(`'elem' | 'id' | 'class' | 'attr' | 'pseudoClass' | 'pseudoElement'`). -/
inductive Kind where
  | elem
  | id
  | «class»
  | attr
  | pseudoClass
  | pseudoElement
  deriving DecidableEq, Repr

/-- Field `this.sym`, as set by the `MyElement` constructor: initially `''`,
then overwritten according to `this.type`. -/
def Kind.sym : Kind → String
  | .elem => ""
  | .id => "#"
  | .«class» => "."
  | .attr => "["
  | .pseudoClass => ":"
  | .pseudoElement => "::"

/-- Field `this.end`, as set by the `MyElement` constructor: `']'` for
`'attr'`, otherwise the initial `''`. -/
def Kind.«end» : Kind → String
  | .attr => "]"
  | _ => ""

/-- The order rank of a kind in the sequence
element, id, class, attribute, pseudo-class, pseudo-element. -/
def Kind.rank : Kind → Nat
  | .elem => 0
  | .id => 1
  | .«class» => 2
  | .attr => 3
  | .pseudoClass => 4
  | .pseudoElement => 5

/-- Pure model of a `MyElement` node: the fields `value`, `type`,
`parent` set by the constructor (`sym` and `end` are functions of
`type`, see `Kind.sym` / `Kind.end`; the mutable `child` field is
modelled separately in the heap model). The constructor argument
order `(value, type, parent)` follows the source. -/
inductive MyElement where
  | mk (value : String) (type : Kind) (parent : Option MyElement)

def MyElement.value : MyElement → String
  | .mk v _ _ => v

def MyElement.type : MyElement → Kind
  | .mk _ t _ => t

def MyElement.parent : MyElement → Option MyElement
  | .mk _ _ p => p

/-- Field `this.validError`. -/
def MyElement.validError : String :=
  "Element, id and pseudo-element should not occur more then one time inside the selector"

/-- Field `this.partsError`. -/
def MyElement.partsError : String :=
  "Selector parts should be arranged in the following order: element, id, class, attribute, pseudo-class, pseudo-element"

/-- Instance method `element()`: throws `validError` when
`this.type === 'elem'` and `partsError` when `this.type !== 'elem'`;
the trailing `return this.type` in the source is unreachable because the
two guards cover all cases. It takes no argument. -/
def MyElement.element (self : MyElement) : Except String MyElement :=
  if self.type = Kind.elem then Except.error MyElement.validError
  else Except.error MyElement.partsError

/-- Instance method `id(val)`. -/
def MyElement.id (self : MyElement) (val : String) : Except String MyElement :=
  if self.type = Kind.id then Except.error MyElement.validError
  else if self.type ≠ Kind.elem then Except.error MyElement.partsError
  else Except.ok (MyElement.mk val Kind.id (some self))

/-- Instance method `class(val)`. -/
def MyElement.«class» (self : MyElement) (val : String) : Except String MyElement :=
  if self.type = Kind.attr ∨ self.type = Kind.pseudoClass ∨ self.type = Kind.pseudoElement then
    Except.error MyElement.partsError
  else Except.ok (MyElement.mk val Kind.«class» (some self))

/-- Instance method `attr(val)`. -/
def MyElement.attr (self : MyElement) (val : String) : Except String MyElement :=
  if self.type = Kind.pseudoClass ∨ self.type = Kind.pseudoElement then
    Except.error MyElement.partsError
  else Except.ok (MyElement.mk val Kind.attr (some self))

/-- Instance method `pseudoClass(val)`. -/
def MyElement.pseudoClass (self : MyElement) (val : String) : Except String MyElement :=
  if self.type = Kind.pseudoElement then Except.error MyElement.partsError
  else Except.ok (MyElement.mk val Kind.pseudoClass (some self))

/-- Instance method `pseudoElement(val)`. -/
def MyElement.pseudoElement (self : MyElement) (val : String) : Except String MyElement :=
  if self.type = Kind.pseudoElement then Except.error MyElement.validError
  else Except.ok (MyElement.mk val Kind.pseudoElement (some self))

/-- Instance method `stringify()`:
`` `${this.parent ? this.parent.stringify() : ''}${this.sym}${this.value}${this.end}` ``. -/
def MyElement.stringify : MyElement → String
  | .mk v t p =>
    (match p with
     | some q => MyElement.stringify q
     | none => "") ++ t.sym ++ v ++ t.«end»

/-- Dispatch of a chaining call by the kind being appended, so claims
can quantify over "a chaining call appending a fragment of kind
`newKind`".  `element()` ignores its argument in the source. -/
def chainCall (self : MyElement) (k : Kind) (v : String) : Except String MyElement :=
  match k with
  | .elem => self.element
  | .id => self.id v
  | .«class» => self.«class» v
  | .attr => self.attr v
  | .pseudoClass => self.pseudoClass v
  | .pseudoElement => self.pseudoElement v

/-- Facade `cssSelectorBuilder.element`. -/
def cssSelectorBuilder.element (value : String) : MyElement :=
  MyElement.mk value Kind.elem none

/-- Facade `cssSelectorBuilder.id`. -/
def cssSelectorBuilder.id (value : String) : MyElement :=
  MyElement.mk value Kind.id none

/-- Facade `cssSelectorBuilder.class`. -/
def cssSelectorBuilder.«class» (value : String) : MyElement :=
  MyElement.mk value Kind.«class» none

/-- Facade `cssSelectorBuilder.attr`. -/
def cssSelectorBuilder.attr (value : String) : MyElement :=
  MyElement.mk value Kind.attr none

/-- Facade `cssSelectorBuilder.pseudoClass`. -/
def cssSelectorBuilder.pseudoClass (value : String) : MyElement :=
  MyElement.mk value Kind.pseudoClass none

/-- Facade `cssSelectorBuilder.pseudoElement`. -/
def cssSelectorBuilder.pseudoElement (value : String) : MyElement :=
  MyElement.mk value Kind.pseudoElement none

/-- A rendering-capable selector: either a fragment chain or the object
returned by `cssSelectorBuilder.combine`. -/
inductive Selector where
  | frag (e : MyElement)
  | combined (left : Selector) (combinator : String) (right : Selector)

/-- Method `stringify()` of a selector; on the object built by `combine` it is
`` `${selector1.stringify()} ${combinator} ${selector2.stringify()}` ``. -/
def Selector.stringify : Selector → String
  | .frag e => e.stringify
  | .combined l c r => l.stringify ++ " " ++ c ++ " " ++ r.stringify

/-- Facade `cssSelectorBuilder.combine`. -/
def cssSelectorBuilder.combine (selector1 : Selector) (combinator : String)
    (selector2 : Selector) : Selector :=
  Selector.combined selector1 combinator selector2

/-- The chain of a fragment, from the first fragment to the fragment
itself, as the list of `(type, value)` pairs along the parent links. -/
def MyElement.toChain : MyElement → List (Kind × String)
  | .mk v t p =>
    (match p with
     | some q => MyElement.toChain q
     | none => []) ++ [(t, v)]

/-- The kinds along the chain of a fragment, first to last. -/
def MyElement.kinds (e : MyElement) : List Kind :=
  e.toChain.map Prod.fst

/-! ## Characterization of a chaining call -/

/-- A chaining call is fully characterized by the duplicate check on the
non-repeatable kinds followed by the order-rank check. -/
theorem chainCall_eq (self : MyElement) (k : Kind) (v : String) :
    chainCall self k v =
      if (k = Kind.elem ∨ k = Kind.id ∨ k = Kind.pseudoElement) ∧ self.type = k then
        Except.error MyElement.validError
      else if k.rank < self.type.rank then Except.error MyElement.partsError
      else Except.ok (MyElement.mk v k (some self)) := by
  rcases self with ⟨w, t, p⟩
  cases t <;> cases k <;> rfl

/-! ## The spec-side rendering of a chain -/

/-- Modelled from the spec (refinement side of C2): the opening symbol
the spec assigns to each kind: `""` for element, `"#"` for id, `"."`
for class, `"["` for attribute, `":"` for pseudo-class, `"::"` for
pseudo-element. -/
def specSym : Kind → String
  | .elem => ""
  | .id => "#"
  | .«class» => "."
  | .attr => "["
  | .pseudoClass => ":"
  | .pseudoElement => "::"

/-- Modelled from the spec (refinement side of C2): the closing `"]"`
for attribute fragments, nothing for the other kinds. -/
def specClose : Kind → String
  | .attr => "]"
  | _ => ""

/-- Modelled from the spec (refinement side of C2): direct
concatenation, in chain order, of each fragment's symbol, stored value
and closing bracket, with no separators. -/
def specRender : List (Kind × String) → String
  | [] => ""
  | p :: rest => specSym p.1 ++ p.2 ++ specClose p.1 ++ specRender rest

theorem Kind.sym_eq_specSym (k : Kind) : k.sym = specSym k := by
  cases k <;> rfl

theorem Kind.end_eq_specClose (k : Kind) : k.«end» = specClose k := by
  cases k <;> rfl

theorem specRender_append (l₁ l₂ : List (Kind × String)) :
    specRender (l₁ ++ l₂) = specRender l₁ ++ specRender l₂ := by
  induction l₁ with
  | nil => simp [specRender]
  | cons p rest ih => simp [specRender, ih, String.append_assoc]

/-! ## The claims -/

/-- Claim C1: a chaining call appending kind `newKind` onto `self` throws
the duplicate error when `newKind` is element, id or pseudo-element and
`self` has that same kind; otherwise throws the ordering error when
`self`'s kind has a strictly greater order rank than `newKind`;
otherwise returns a new fragment of kind `newKind` holding the value,
with `self` as its predecessor. -/
theorem chainCall_spec (self : MyElement) (newKind : Kind) (v : String) :
    chainCall self newKind v =
      if (newKind = Kind.elem ∨ newKind = Kind.id ∨ newKind = Kind.pseudoElement) ∧
          self.type = newKind then
        Except.error MyElement.validError
      else if self.type.rank > newKind.rank then Except.error MyElement.partsError
      else Except.ok (MyElement.mk v newKind (some self)) :=
  chainCall_eq self newKind v

/-- Claim C2: `stringify()` returns the direct concatenation, in chain
order, of each fragment's prefix (`""`, `"#"`, `"."`, `"["`, `":"`,
`"::"`) followed by its stored value, plus the closing `"]"` for
attribute fragments, with no separators between fragments. -/
theorem stringify_eq_specRender : ∀ e : MyElement, e.stringify = specRender e.toChain
  | .mk v t p => by
    cases p with
    | none =>
        simp [MyElement.stringify, MyElement.toChain, specRender,
          Kind.sym_eq_specSym, Kind.end_eq_specClose, String.append_assoc]
    | some q =>
        have ih := stringify_eq_specRender q
        simp [MyElement.stringify, MyElement.toChain, specRender_append, ih,
          specRender, Kind.sym_eq_specSym, Kind.end_eq_specClose, String.append_assoc]

/-- Claim C3, counterexample: the chain `element('a').class('b')` contains
an element fragment, yet calling `.element(...)` on its last fragment
throws the ordering error, not the duplicate error. -/
theorem element_call_on_class_fragment_gives_partsError :
    (cssSelectorBuilder.element "a").«class» "b"
        = Except.ok (MyElement.mk "b" Kind.«class»
            (some (MyElement.mk "a" Kind.elem none))) ∧
    Kind.elem ∈ (MyElement.mk "b" Kind.«class»
        (some (MyElement.mk "a" Kind.elem none))).kinds ∧
    (MyElement.mk "b" Kind.«class»
        (some (MyElement.mk "a" Kind.elem none))).element
      = Except.error MyElement.partsError ∧
    MyElement.partsError ≠ MyElement.validError :=
  ⟨rfl, by decide, rfl, by decide⟩

/-- Claim C3, amended: `.element(...)` throws the duplicate-kind error
exactly when the fragment the call is made on is itself of kind
element; on a fragment of any other kind it throws the ordering error,
even when the chain contains an element fragment earlier. -/
theorem element_call_error_by_receiver_kind (self : MyElement) :
    self.element = Except.error
      (if self.type = Kind.elem then MyElement.validError else MyElement.partsError) := by
  rcases self with ⟨v, t, p⟩
  cases t <;> rfl

/-- Claim C4: `combine(left, combinator, right).stringify()` is
`left.stringify()`, a space, the combinator verbatim, a space,
`right.stringify()`; with the space combinator exactly three spaces
separate the sides, and nesting renders by the same rule. -/
theorem combine_stringify_spec (left right : Selector) (c : String) :
    (cssSelectorBuilder.combine left c right).stringify
        = left.stringify ++ " " ++ c ++ " " ++ right.stringify ∧
    (cssSelectorBuilder.combine left " " right).stringify
        = left.stringify ++ "   " ++ right.stringify := by
  constructor
  · rfl
  · show left.stringify ++ " " ++ " " ++ " " ++ right.stringify
        = left.stringify ++ "   " ++ right.stringify
    have h3 : (" " ++ " " ++ " " : String) = "   " := rfl
    rw [String.append_assoc left.stringify, String.append_assoc left.stringify,
      String.append_assoc left.stringify, h3, ← String.append_assoc]

/-- Claim C8: the two concrete renderings:
`element('div').id('main').class('container').class('draggable')`
stringifies to `'div#main.container.draggable'`, and
`element('a').attr('href$=".png"').pseudoClass('focus')` stringifies to
`'a[href$=".png"]:focus'`. -/
theorem concrete_renderings :
    ((do
      let e1 ← (cssSelectorBuilder.element "div").id "main"
      let e2 ← e1.«class» "container"
      let e3 ← e2.«class» "draggable"
      pure e3.stringify : Except String String)
        = Except.ok "div#main.container.draggable") ∧
    ((do
      let e1 ← (cssSelectorBuilder.element "a").attr "href$=\".png\""
      let e2 ← e1.pseudoClass "focus"
      pure e2.stringify : Except String String)
        = Except.ok "a[href$=\".png\"]:focus") :=
  ⟨rfl, rfl⟩

/-! ## Chains reachable through the public operations -/

/-- Fragments reachable through the public operations without an error:
created by one of the six facade start operations (a fresh fragment
with no parent), or the successful result of a chaining call on a
reachable fragment. -/
inductive Built : MyElement → Prop where
  | base (v : String) (k : Kind) : Built (MyElement.mk v k none)
  | step {e e' : MyElement} (k : Kind) (v : String) :
      Built e → chainCall e k v = Except.ok e' → Built e'

/-- Number of occurrences of a kind in a list of kinds. -/
def countKind (k : Kind) : List Kind → Nat
  | [] => 0
  | a :: rest => (if a = k then 1 else 0) + countKind k rest

theorem countKind_append (k : Kind) (l₁ l₂ : List Kind) :
    countKind k (l₁ ++ l₂) = countKind k l₁ + countKind k l₂ := by
  induction l₁ with
  | nil => simp [countKind]
  | cons a rest ih => simp [countKind, ih]; omega

theorem countKind_eq_zero_of_not_mem {k : Kind} {l : List Kind}
    (h : ∀ b ∈ l, b ≠ k) : countKind k l = 0 := by
  induction l with
  | nil => rfl
  | cons a rest ih =>
      have ha : a ≠ k := h a (by simp)
      simp [countKind, ha, ih fun b hb => h b (by simp [hb])]

theorem kinds_mk (v : String) (t : Kind) (p : Option MyElement) :
    (MyElement.mk v t p).kinds
      = (match p with | some q => q.kinds | none => []) ++ [t] := by
  cases p <;> simp [MyElement.kinds, MyElement.toChain]

/-- The list of kinds of a chain always ends with the kind of the
fragment itself. -/
theorem kinds_eq_concat_type (e : MyElement) :
    ∃ l, e.kinds = l ++ [e.type] := by
  rcases e with ⟨v, t, p⟩
  exact ⟨_, kinds_mk v t p⟩

/-- Any kind other than `elem` has rank at least 1. -/
theorem Kind.one_le_rank_of_ne_elem {t : Kind} (h : t ≠ Kind.elem) : 1 ≤ t.rank := by
  cases t <;> simp_all [Kind.rank]

/-- What a successful chaining call guarantees: the result is the new
fragment; the receiver's rank does not exceed the appended kind's rank;
the appended kind is never `elem`; an `id` is only appended onto an
`elem`; a `pseudoElement` is never appended onto a `pseudoElement`. -/
theorem chainCall_ok_dest {e e' : MyElement} {k : Kind} {v : String}
    (h : chainCall e k v = Except.ok e') :
    e' = MyElement.mk v k (some e) ∧ e.type.rank ≤ k.rank ∧ k ≠ Kind.elem ∧
      (k = Kind.id → e.type = Kind.elem) ∧
      (k = Kind.pseudoElement → e.type ≠ Kind.pseudoElement) := by
  rw [chainCall_eq] at h
  rcases e with ⟨w, t, p⟩
  cases t <;> cases k <;> simp_all [MyElement.type, Kind.rank]


/-- A kind of rank at most 4 is not `pseudoElement`. -/
theorem Kind.ne_pseudoElement_of_rank_le {b t : Kind} (hb : b.rank ≤ t.rank)
    (ht : t ≠ Kind.pseudoElement) : b ≠ Kind.pseudoElement := by
  cases b <;> cases t <;> simp_all [Kind.rank]

/-- The invariant maintained by every successful public construction:
the kinds along the chain are in non-decreasing order rank, every kind
in the chain has rank at most the last fragment's rank, `elem`, `id`
and `pseudoElement` each occur at most once, and a chain ending in an
`elem` fragment is exactly the one-fragment chain `[elem]`. -/
theorem built_inv {e : MyElement} (h : Built e) :
    List.Chain' (fun a b => a.rank ≤ b.rank) e.kinds ∧
    (∀ b ∈ e.kinds, b.rank ≤ e.type.rank) ∧
    countKind Kind.elem e.kinds ≤ 1 ∧
    countKind Kind.id e.kinds ≤ 1 ∧
    countKind Kind.pseudoElement e.kinds ≤ 1 ∧
    (e.type = Kind.elem → e.kinds = [Kind.elem]) := by
  induction h with
  | base v k =>
      refine ⟨?_, ?_, ?_, ?_, ?_, ?_⟩ <;>
        cases k <;> simp [kinds_mk, MyElement.type, countKind]
  | @step e e' k v hb hok ih =>
      obtain ⟨he', hrank, hkne, hid, hpe⟩ := chainCall_ok_dest hok
      subst he'
      obtain ⟨hord, hbound, hce, hci, hcp, helem⟩ := ih
      have hkinds : (MyElement.mk v k (some e)).kinds = e.kinds ++ [k] :=
        kinds_mk v k (some e)
      have htype : (MyElement.mk v k (some e)).type = k := rfl
      have hlast : ∀ x ∈ e.kinds.getLast?, ∀ y ∈ ([k] : List Kind).head?,
          x.rank ≤ y.rank := by
        obtain ⟨l, hl⟩ := kinds_eq_concat_type e
        intro x hx y hy
        rw [hl] at hx
        simp at hx hy
        rw [← hx, ← hy]
        exact hrank
      refine ⟨?_, ?_, ?_, ?_, ?_, ?_⟩
      · rw [hkinds]
        exact hord.append (List.chain'_singleton k) hlast
      · rw [hkinds, htype]
        intro b hb'
        rcases List.mem_append.1 hb' with hmem | hmem
        · exact le_trans (hbound b hmem) hrank
        · simp at hmem
          rw [hmem]
      · rw [hkinds, countKind_append]
        have h0 : countKind Kind.elem [k] = 0 := by simp [countKind, hkne]
        omega
      · rw [hkinds, countKind_append]
        by_cases hk : k = Kind.id
        · subst hk
          have he : e.kinds = [Kind.elem] := helem (hid rfl)
          rw [he]
          simp [countKind]
        · have h0 : countKind Kind.id [k] = 0 := by simp [countKind, hk]
          omega
      · rw [hkinds, countKind_append]
        by_cases hk : k = Kind.pseudoElement
        · subst hk
          have h0 : countKind Kind.pseudoElement e.kinds = 0 :=
            countKind_eq_zero_of_not_mem fun b hbm =>
              Kind.ne_pseudoElement_of_rank_le (hbound b hbm) (hpe rfl)
          rw [h0]
          simp [countKind]
        · have h0 : countKind Kind.pseudoElement [k] = 0 := by simp [countKind, hk]
          omega
      · rw [htype]
        intro hke
        exact absurd hke hkne

/-- Claim C5: every fragment chain constructible through the public
operations without an error has its kinds in non-decreasing order rank,
and `elem`, `id` and `pseudoElement` each occur at most once in the
whole chain. -/
theorem built_chain_invariants {e : MyElement} (h : Built e) :
    List.Chain' (fun a b => a.rank ≤ b.rank) e.kinds ∧
    countKind Kind.elem e.kinds ≤ 1 ∧
    countKind Kind.id e.kinds ≤ 1 ∧
    countKind Kind.pseudoElement e.kinds ≤ 1 := by
  obtain ⟨h1, _, h3, h4, h5, _⟩ := built_inv h
  exact ⟨h1, h3, h4, h5⟩

/-- Witness for C5 at the chain `element('a').id('b').class('c')`. -/
theorem built_chain_invariants_witness :
    Built (MyElement.mk "c" Kind.«class» (some (MyElement.mk "b" Kind.id
      (some (MyElement.mk "a" Kind.elem none))))) ∧
    (List.Chain' (fun a b => a.rank ≤ b.rank)
        (MyElement.mk "c" Kind.«class» (some (MyElement.mk "b" Kind.id
          (some (MyElement.mk "a" Kind.elem none))))).kinds ∧
      countKind Kind.elem (MyElement.mk "c" Kind.«class» (some (MyElement.mk "b" Kind.id
        (some (MyElement.mk "a" Kind.elem none))))).kinds ≤ 1 ∧
      countKind Kind.id (MyElement.mk "c" Kind.«class» (some (MyElement.mk "b" Kind.id
        (some (MyElement.mk "a" Kind.elem none))))).kinds ≤ 1 ∧
      countKind Kind.pseudoElement (MyElement.mk "c" Kind.«class» (some (MyElement.mk "b" Kind.id
        (some (MyElement.mk "a" Kind.elem none))))).kinds ≤ 1) :=
  have hb : Built (MyElement.mk "c" Kind.«class» (some (MyElement.mk "b" Kind.id
      (some (MyElement.mk "a" Kind.elem none))))) :=
    Built.step Kind.«class» "c"
      (Built.step Kind.id "b" (Built.base "a" Kind.elem) rfl) rfl
  ⟨hb, built_chain_invariants hb⟩

/-- Claim C6: `combine` accepts any combinator string without validation
and renders it as-is; `stringify` is total on fragments and combined
selectors (it is a plain function of the model); and a chaining call
either succeeds or throws one of the two validation messages — there
are no other failure modes. -/
theorem combine_total_and_only_two_errors :
    (∀ (left right : Selector) (c : String),
        (cssSelectorBuilder.combine left c right).stringify
          = left.stringify ++ " " ++ c ++ " " ++ right.stringify) ∧
    (∀ (self : MyElement) (k : Kind) (v : String),
        (∃ e', chainCall self k v = Except.ok e') ∨
        chainCall self k v = Except.error MyElement.validError ∨
        chainCall self k v = Except.error MyElement.partsError) := by
  refine ⟨fun _ _ _ => rfl, fun self k v => ?_⟩
  rw [chainCall_eq]
  split
  · exact Or.inr (Or.inl rfl)
  · split
    · exact Or.inr (Or.inr rfl)
    · exact Or.inl ⟨_, rfl⟩

/-- In a chain built through the public operations, an `elem` kind only
occurs at position 0. -/
theorem built_elem_only_first {e : MyElement} (h : Built e) :
    ∀ i, e.kinds[i]? = some Kind.elem → i = 0 := by
  induction h with
  | base v k =>
      intro i hi
      rw [kinds_mk] at hi
      cases i with
      | zero => rfl
      | succ n => simp at hi
  | @step e e' k v hb hok ih =>
      obtain ⟨he', _, hkne, _, _⟩ := chainCall_ok_dest hok
      subst he'
      intro i hi
      rw [kinds_mk] at hi
      rw [List.getElem?_append] at hi
      split at hi
      · exact ih i hi
      · cases hd : i - e.kinds.length with
        | zero =>
            rw [hd] at hi
            simp at hi
            exact absurd hi hkne
        | succ n =>
            rw [hd] at hi
            simp at hi

/-- Claim C10: the instance-level `element()` never returns normally: it
throws the duplicate message when the receiver's kind is `elem` and the
ordering message otherwise; it ignores any argument passed to the
chaining call; and in every chain built through the public operations
an `elem` fragment only occurs in first position. -/
theorem element_never_returns :
    (∀ self : MyElement,
        self.element = Except.error
          (if self.type = Kind.elem then MyElement.validError
           else MyElement.partsError)) ∧
    (∀ (self : MyElement) (v v' : String),
        chainCall self Kind.elem v = chainCall self Kind.elem v') ∧
    (∀ e : MyElement, Built e → ∀ i, e.kinds[i]? = some Kind.elem → i = 0) := by
  refine ⟨?_, ?_, ?_⟩
  · intro self
    rcases self with ⟨v, t, p⟩
    cases t <;> rfl
  · intro self v v'
    rfl
  · intro e h
    exact built_elem_only_first h

/-- Witness for C10 at the chain `element('a').id('b')` and position 0. -/
theorem element_never_returns_witness :
    Built (MyElement.mk "b" Kind.id (some (MyElement.mk "a" Kind.elem none))) ∧
    (MyElement.mk "b" Kind.id
        (some (MyElement.mk "a" Kind.elem none))).kinds[0]? = some Kind.elem ∧
    0 = 0 :=
  have hb : Built (MyElement.mk "b" Kind.id
      (some (MyElement.mk "a" Kind.elem none))) :=
    Built.step Kind.id "b" (Built.base "a" Kind.elem) rfl
  ⟨hb, rfl, element_never_returns.2.2 _ hb 0 rfl⟩

/-! ## Heap model of `MyElement` objects

The JavaScript chaining methods execute `this.child = new MyElement(val,
kind, this); return this.child;`: they *assign* to the receiver's
`child` field.  To reason about this mutation, a `MyElement` object is
modelled as a cell in a list-indexed heap; `new` allocates at the next
free address and the assignment to `child` is an explicit store. -/

/-- One `MyElement` object: the fields set by the constructor.
`parent` and `child` are heap addresses; `child = none` models the
initial `{}` placeholder, `child = some a` the state after
`this.child = ...`. -/
structure Cell where
  value : String
  type : Kind
  parent : Option Nat
  child : Option Nat
  deriving DecidableEq, Repr

/-- A facade start call `new MyElement(value, kind)` (no parent):
allocate a fresh cell at the next address. -/
def heapStart (h : List Cell) (k : Kind) (v : String) : List Cell × Nat :=
  (h ++ [(⟨v, k, none, none⟩ : Cell)], h.length)

/-- The statements `this.child = new MyElement(val, kind, this);
return this.child;`: allocate the new cell with the receiver as parent, then overwrite the
receiver's `child` field with the new address. -/
def heapLink (h : List Cell) (a : Nat) (c : Cell) (k : Kind) (v : String) :
    Except String (List Cell × Nat) :=
  Except.ok
    ((h ++ [(⟨v, k, some a, none⟩ : Cell)]).set a ⟨c.value, c.type, c.parent, some h.length⟩,
      h.length)

/-- Instance method `element()` in the heap model: both guards throw,
no allocation and no store happen. -/
def heapElement (h : List Cell) (a : Nat) : Except String (List Cell × Nat) :=
  match h[a]? with
  | none => Except.error "invalid address"
  | some c =>
    if c.type = Kind.elem then Except.error MyElement.validError
    else Except.error MyElement.partsError

/-- Instance method `id(val)` in the heap model. -/
def heapId (h : List Cell) (a : Nat) (val : String) : Except String (List Cell × Nat) :=
  match h[a]? with
  | none => Except.error "invalid address"
  | some c =>
    if c.type = Kind.id then Except.error MyElement.validError
    else if c.type ≠ Kind.elem then Except.error MyElement.partsError
    else heapLink h a c Kind.id val

/-- Instance method `class(val)` in the heap model. -/
def heapClass (h : List Cell) (a : Nat) (val : String) : Except String (List Cell × Nat) :=
  match h[a]? with
  | none => Except.error "invalid address"
  | some c =>
    if c.type = Kind.attr ∨ c.type = Kind.pseudoClass ∨ c.type = Kind.pseudoElement then
      Except.error MyElement.partsError
    else heapLink h a c Kind.«class» val

/-- Instance method `attr(val)` in the heap model. -/
def heapAttr (h : List Cell) (a : Nat) (val : String) : Except String (List Cell × Nat) :=
  match h[a]? with
  | none => Except.error "invalid address"
  | some c =>
    if c.type = Kind.pseudoClass ∨ c.type = Kind.pseudoElement then
      Except.error MyElement.partsError
    else heapLink h a c Kind.attr val

/-- Instance method `pseudoClass(val)` in the heap model. -/
def heapPseudoClass (h : List Cell) (a : Nat) (val : String) :
    Except String (List Cell × Nat) :=
  match h[a]? with
  | none => Except.error "invalid address"
  | some c =>
    if c.type = Kind.pseudoElement then Except.error MyElement.partsError
    else heapLink h a c Kind.pseudoClass val

/-- Instance method `pseudoElement(val)` in the heap model. -/
def heapPseudoElement (h : List Cell) (a : Nat) (val : String) :
    Except String (List Cell × Nat) :=
  match h[a]? with
  | none => Except.error "invalid address"
  | some c =>
    if c.type = Kind.pseudoElement then Except.error MyElement.validError
    else heapLink h a c Kind.pseudoElement val

/-- A chaining call in the heap model, dispatched by the kind being
appended. -/
def heapChainCall (h : List Cell) (a : Nat) (k : Kind) (v : String) :
    Except String (List Cell × Nat) :=
  match k with
  | Kind.elem => heapElement h a
  | Kind.id => heapId h a v
  | Kind.«class» => heapClass h a v
  | Kind.attr => heapAttr h a v
  | Kind.pseudoClass => heapPseudoClass h a v
  | Kind.pseudoElement => heapPseudoElement h a v

/-- Method `stringify()` in the heap model: render the parent chain, then this
cell's symbol, value and closing bracket.  Parents are always allocated
before their children, so parent addresses strictly decrease along a
chain and the starting address bounds the recursion depth; the `fuel`
argument makes the recursion structural. -/
def heapStringifyAux (h : List Cell) : Nat → Nat → String
  | 0, a =>
    match h[a]? with
    | none => ""
    | some c => "" ++ c.type.sym ++ c.value ++ c.type.«end»
  | f + 1, a =>
    match h[a]? with
    | none => ""
    | some c =>
      (match c.parent with
       | some p => heapStringifyAux h f p
       | none => "") ++ c.type.sym ++ c.value ++ c.type.«end»

/-- Method `stringify()` at address `a`, with the address itself as fuel. -/
def heapStringify (h : List Cell) (a : Nat) : String :=
  heapStringifyAux h a a

/-- Well-formed heap: every parent pointer refers to a strictly earlier
address.  Every heap produced by `heapStart` / `heapChainCall`
satisfies this, since `new MyElement` receives an already-allocated
fragment as parent. -/
def heapWF (h : List Cell) : Bool :=
  (List.range h.length).all fun i =>
    match h[i]? with
    | none => true
    | some c =>
      match c.parent with
      | none => true
      | some p => decide (p < i)

theorem heapWF_spec {h : List Cell} (hwf : heapWF h = true) {i : Nat} {c : Cell}
    (hc : h[i]? = some c) {p : Nat} (hp : c.parent = some p) : p < i := by
  have hi : i < h.length := by
    by_contra hgt
    rw [List.getElem?_eq_none (by omega)] at hc
    exact absurd hc (by simp)
  have hall := List.all_eq_true.mp hwf i (List.mem_range.mpr hi)
  simp only [hc, hp] at hall
  exact of_decide_eq_true hall


/-- What a successful heap chaining call produces: the receiver exists,
the result address is the next free one, and the new heap is the old
one extended by the fresh cell, with the receiver's `child` field
overwritten. -/
theorem heapChainCall_ok_dest {h : List Cell} {a : Nat} {k : Kind} {v : String}
    {h' : List Cell} {r : Nat}
    (hok : heapChainCall h a k v = Except.ok (h', r)) :
    ∃ c, h[a]? = some c ∧ r = h.length ∧
      h' = (h ++ [(⟨v, k, some a, none⟩ : Cell)]).set a
        ⟨c.value, c.type, c.parent, some h.length⟩ := by
  cases k with
  | elem =>
      simp only [heapChainCall] at hok
      unfold heapElement at hok
      split at hok
      · simp at hok
      · split at hok <;> simp at hok
  | id =>
      simp only [heapChainCall] at hok
      unfold heapId at hok
      split at hok
      · simp at hok
      · rename_i c heq
        refine ⟨c, heq, ?_⟩
        split at hok
        · simp at hok
        · split at hok
          · simp at hok
          · simp only [heapLink, Except.ok.injEq, Prod.mk.injEq] at hok
            exact ⟨hok.2.symm, hok.1.symm⟩
  | «class» =>
      simp only [heapChainCall] at hok
      unfold heapClass at hok
      split at hok
      · simp at hok
      · rename_i c heq
        refine ⟨c, heq, ?_⟩
        split at hok
        · simp at hok
        · simp only [heapLink, Except.ok.injEq, Prod.mk.injEq] at hok
          exact ⟨hok.2.symm, hok.1.symm⟩
  | attr =>
      simp only [heapChainCall] at hok
      unfold heapAttr at hok
      split at hok
      · simp at hok
      · rename_i c heq
        refine ⟨c, heq, ?_⟩
        split at hok
        · simp at hok
        · simp only [heapLink, Except.ok.injEq, Prod.mk.injEq] at hok
          exact ⟨hok.2.symm, hok.1.symm⟩
  | pseudoClass =>
      simp only [heapChainCall] at hok
      unfold heapPseudoClass at hok
      split at hok
      · simp at hok
      · rename_i c heq
        refine ⟨c, heq, ?_⟩
        split at hok
        · simp at hok
        · simp only [heapLink, Except.ok.injEq, Prod.mk.injEq] at hok
          exact ⟨hok.2.symm, hok.1.symm⟩
  | pseudoElement =>
      simp only [heapChainCall] at hok
      unfold heapPseudoElement at hok
      split at hok
      · simp at hok
      · rename_i c heq
        refine ⟨c, heq, ?_⟩
        split at hok
        · simp at hok
        · simp only [heapLink, Except.ok.injEq, Prod.mk.injEq] at hok
          exact ⟨hok.2.symm, hok.1.symm⟩


theorem heapStringifyAux_zero_some {h : List Cell} {b : Nat} {c : Cell}
    (hc : h[b]? = some c) :
    heapStringifyAux h 0 b = "" ++ c.type.sym ++ c.value ++ c.type.«end» := by
  conv_lhs => unfold heapStringifyAux
  rw [hc]

theorem heapStringifyAux_succ_some {h : List Cell} {b : Nat} {c : Cell} (f : Nat)
    (hc : h[b]? = some c) :
    heapStringifyAux h (f + 1) b =
      (match c.parent with
       | some p => heapStringifyAux h f p
       | none => "") ++ c.type.sym ++ c.value ++ c.type.«end» := by
  conv_lhs => unfold heapStringifyAux
  rw [hc]

theorem heapStringifyAux_none {h : List Cell} {b : Nat} (fuel : Nat)
    (hc : h[b]? = none) :
    heapStringifyAux h fuel b = "" := by
  cases fuel <;> (conv_lhs => unfold heapStringifyAux) <;> rw [hc]

/-- A fragment with no parent renders the same for every fuel. -/
theorem heapStringifyAux_parent_none {h : List Cell} {b : Nat} {c : Cell}
    (hc : h[b]? = some c) (hp : c.parent = none) (fuel : Nat) :
    heapStringifyAux h fuel b = "" ++ c.type.sym ++ c.value ++ c.type.«end» := by
  cases fuel with
  | zero => rw [heapStringifyAux_zero_some hc]
  | succ f => rw [heapStringifyAux_succ_some f hc, hp]

/-- With a well-formed heap, any fuel of at least the starting address
renders the same string as fuel equal to the address. -/
theorem heapStringifyAux_fuel {h : List Cell} (hwf : heapWF h = true) :
    ∀ a fuel, a ≤ fuel → heapStringifyAux h fuel a = heapStringifyAux h a a := by
  intro a
  induction a using Nat.strong_induction_on with
  | _ a ih =>
    intro fuel hfuel
    cases hc : h[a]? with
    | none => rw [heapStringifyAux_none fuel hc, heapStringifyAux_none a hc]
    | some c =>
        cases hp : c.parent with
        | none =>
            rw [heapStringifyAux_parent_none hc hp fuel,
              heapStringifyAux_parent_none hc hp a]
        | some p =>
            have hpa : p < a := heapWF_spec hwf hc hp
            obtain ⟨f, rfl⟩ : ∃ f, fuel = f + 1 := ⟨fuel - 1, by omega⟩
            obtain ⟨b, rfl⟩ : ∃ b, a = b + 1 := ⟨a - 1, by omega⟩
            rw [heapStringifyAux_succ_some f hc, heapStringifyAux_succ_some b hc, hp]
            show heapStringifyAux h f p ++ c.type.sym ++ c.value ++ c.type.«end»
                = heapStringifyAux h b p ++ c.type.sym ++ c.value ++ c.type.«end»
            rw [ih p (by omega) f (by omega), ih p (by omega) b (by omega)]

/-- A successful chaining call does not change the rendering of any
already-allocated fragment, whatever the fuel: the call only writes the
receiver's `child` field, which `stringify()` never reads. -/
theorem heapStringifyAux_preserved {h : List Cell} {a : Nat} {k : Kind} {v : String}
    {h' : List Cell} {r : Nat} (hwf : heapWF h = true)
    (hok : heapChainCall h a k v = Except.ok (h', r)) :
    ∀ fuel b, b < h.length → heapStringifyAux h' fuel b = heapStringifyAux h fuel b := by
  obtain ⟨c, hc, hr, hh'⟩ := heapChainCall_ok_dest hok
  have ha : a < h.length := by
    by_contra hgt
    rw [List.getElem?_eq_none (by omega)] at hc
    exact absurd hc (by simp)
  have hlook : ∀ b, b < h.length → ∃ cb cb', h[b]? = some cb ∧ h'[b]? = some cb' ∧
      cb'.value = cb.value ∧ cb'.type = cb.type ∧ cb'.parent = cb.parent := by
    intro b hb
    obtain ⟨cb, hcb⟩ : ∃ cb, h[b]? = some cb := by
      cases hcb : h[b]? with
      | none =>
          rw [List.getElem?_eq_none_iff] at hcb
          omega
      | some cb => exact ⟨cb, rfl⟩
    by_cases hba : b = a
    · subst hba
      have hcc : cb = c := by
        rw [hc] at hcb
        exact Option.some_injective Cell hcb.symm
      subst hcc
      refine ⟨cb, ⟨cb.value, cb.type, cb.parent, some h.length⟩, hcb, ?_, rfl, rfl, rfl⟩
      rw [hh']
      exact List.getElem?_set_self (by simp; omega)
    · refine ⟨cb, cb, hcb, ?_, rfl, rfl, rfl⟩
      rw [hh', List.getElem?_set_ne (fun hh => hba hh.symm), List.getElem?_append]
      rw [if_pos hb]
      exact hcb
  intro fuel
  induction fuel with
  | zero =>
      intro b hb
      obtain ⟨cb, cb', hcb, hcb', hv, ht, hp⟩ := hlook b hb
      rw [heapStringifyAux_zero_some hcb', heapStringifyAux_zero_some hcb, hv, ht]
  | succ f ih =>
      intro b hb
      obtain ⟨cb, cb', hcb, hcb', hv, ht, hp⟩ := hlook b hb
      rw [heapStringifyAux_succ_some f hcb', heapStringifyAux_succ_some f hcb, hv, ht, hp]
      cases hpp : cb.parent with
      | none => rfl
      | some p =>
          have hpb : p < b := heapWF_spec hwf hcb hpp
          show heapStringifyAux h' f p ++ cb.type.sym ++ cb.value ++ cb.type.«end»
              = heapStringifyAux h f p ++ cb.type.sym ++ cb.value ++ cb.type.«end»
          rw [ih p (by omega)]

/-- Claim C7, counterexample: chaining `.id('b')` onto the fragment
created by `element('a')` overwrites that fragment's `child` field:
the cell at address 0 changes from `child = none` to `child = some 1`,
so a fragment *is* mutated after its construction. -/
theorem chaining_mutates_child_field :
    heapStart [] Kind.elem "a" = ([(⟨"a", Kind.elem, none, none⟩ : Cell)], 0) ∧
    heapChainCall [(⟨"a", Kind.elem, none, none⟩ : Cell)] 0 Kind.id "b"
      = Except.ok ([(⟨"a", Kind.elem, none, some 1⟩ : Cell),
          (⟨"b", Kind.id, some 0, none⟩ : Cell)], 1) ∧
    (⟨"a", Kind.elem, none, some 1⟩ : Cell) ≠ (⟨"a", Kind.elem, none, none⟩ : Cell) :=
  ⟨rfl, rfl, by decide⟩

/-- Claim C7, amended: a successful chaining call allocates exactly one
new cell and, among the already-existing cells, changes at most the
receiver's `child` field: every other cell is untouched, and even the
receiver keeps its `value`, `type` and `parent` fields. -/
theorem heap_chain_frame
    (h : List Cell) (a : Nat) (k : Kind) (v : String) (h' : List Cell) (r : Nat)
    (hok : heapChainCall h a k v = Except.ok (h', r)) :
    h'.length = h.length + 1 ∧
    (∀ b ∈ List.range h.length, b ≠ a → h'[b]? = h[b]?) ∧
    (∀ b ∈ List.range h.length,
        (h'[b]?).map Cell.value = (h[b]?).map Cell.value ∧
        (h'[b]?).map Cell.type = (h[b]?).map Cell.type ∧
        (h'[b]?).map Cell.parent = (h[b]?).map Cell.parent) := by
  obtain ⟨c, hc, hr, hh'⟩ := heapChainCall_ok_dest hok
  have ha : a < h.length := by
    by_contra hgt
    rw [List.getElem?_eq_none (by omega)] at hc
    exact absurd hc (by simp)
  subst hh'
  refine ⟨by simp, ?_, ?_⟩
  · intro b hb hba
    rw [List.mem_range] at hb
    rw [List.getElem?_set_ne (fun hh => hba hh.symm), List.getElem?_append, if_pos hb]
  · intro b hb
    rw [List.mem_range] at hb
    by_cases hba : b = a
    · subst hba
      rw [List.getElem?_set_self (by simp; omega), hc]
      exact ⟨rfl, rfl, rfl⟩
    · rw [List.getElem?_set_ne (fun hh => hba hh.symm), List.getElem?_append, if_pos hb]
      exact ⟨rfl, rfl, rfl⟩

/-- Witness for the amended C7 at `element('a')` followed by
`.id('b')`. -/
theorem heap_chain_frame_witness :
    heapChainCall [(⟨"a", Kind.elem, none, none⟩ : Cell)] 0 Kind.id "b"
      = Except.ok ([(⟨"a", Kind.elem, none, some 1⟩ : Cell),
          (⟨"b", Kind.id, some 0, none⟩ : Cell)], 1) ∧
    ([(⟨"a", Kind.elem, none, some 1⟩ : Cell),
        (⟨"b", Kind.id, some 0, none⟩ : Cell)] : List Cell).length
      = ([(⟨"a", Kind.elem, none, none⟩ : Cell)] : List Cell).length + 1 :=
  ⟨rfl,
    (heap_chain_frame [(⟨"a", Kind.elem, none, none⟩ : Cell)] 0 Kind.id "b"
      [(⟨"a", Kind.elem, none, some 1⟩ : Cell), (⟨"b", Kind.id, some 0, none⟩ : Cell)] 1
      rfl).1⟩

/-- Claim C9: on a well-formed heap, a successful chaining call returns
the fresh address, leaves the `stringify()` result of every existing
fragment — in particular the receiver's — unchanged, and the new
fragment renders as its parent's rendering followed by its own symbol,
value and closing bracket; so several chains may branch from one
fragment and each renders from its own parent links only, even though
the call overwrites the receiver's `child` field. -/
theorem heap_chain_preserves_stringify
    (h : List Cell) (a : Nat) (k : Kind) (v : String) (h' : List Cell) (r : Nat)
    (hwf : heapWF h = true)
    (hok : heapChainCall h a k v = Except.ok (h', r)) :
    r = h.length ∧
    (∀ b ∈ List.range h.length, heapStringify h' b = heapStringify h b) ∧
    heapStringify h' r = heapStringify h a ++ k.sym ++ v ++ k.«end» := by
  obtain ⟨c, hc, hr, hh'⟩ := heapChainCall_ok_dest hok
  have ha : a < h.length := by
    by_contra hgt
    rw [List.getElem?_eq_none (by omega)] at hc
    exact absurd hc (by simp)
  refine ⟨hr, ?_, ?_⟩
  · intro b hb
    rw [List.mem_range] at hb
    unfold heapStringify
    exact heapStringifyAux_preserved hwf hok b b hb
  · subst hr
    have hnc : h'[h.length]? = some (⟨v, k, some a, none⟩ : Cell) := by
      rw [hh', List.getElem?_set_ne (by omega : a ≠ h.length)]
      simp
    obtain ⟨f, hf⟩ : ∃ f, h.length = f + 1 := ⟨h.length - 1, by omega⟩
    rw [hf] at hnc
    unfold heapStringify
    rw [hf, heapStringifyAux_succ_some f hnc]
    show heapStringifyAux h' f a ++ k.sym ++ v ++ k.«end»
        = heapStringifyAux h a a ++ k.sym ++ v ++ k.«end»
    rw [heapStringifyAux_preserved hwf hok f a ha,
      heapStringifyAux_fuel hwf a f (by omega)]

/-- Witness for C9 at `element('a')` followed by `.id('b')`. -/
theorem heap_chain_preserves_stringify_witness :
    heapWF [(⟨"a", Kind.elem, none, none⟩ : Cell)] = true ∧
    heapChainCall [(⟨"a", Kind.elem, none, none⟩ : Cell)] 0 Kind.id "b"
      = Except.ok ([(⟨"a", Kind.elem, none, some 1⟩ : Cell),
          (⟨"b", Kind.id, some 0, none⟩ : Cell)], 1) ∧
    heapStringify [(⟨"a", Kind.elem, none, some 1⟩ : Cell),
        (⟨"b", Kind.id, some 0, none⟩ : Cell)] 1
      = heapStringify [(⟨"a", Kind.elem, none, none⟩ : Cell)] 0
          ++ Kind.sym Kind.id ++ "b" ++ Kind.«end» Kind.id :=
  ⟨by decide, rfl,
    (heap_chain_preserves_stringify [(⟨"a", Kind.elem, none, none⟩ : Cell)] 0 Kind.id "b"
      [(⟨"a", Kind.elem, none, some 1⟩ : Cell), (⟨"b", Kind.id, some 0, none⟩ : Cell)] 1
      (by decide) rfl).2.2⟩
